import Mathlib

/-!
Verification of the batch run-splitting and dispatch subsystem of
`saturn_client` (`saturn_client/run.py`), shallowly embedded in Lean 4.

The embedding models:
* Python's `str`/`int` builtins on integers (decimal printing/parsing);
* `os.path.join` for the two-argument calls used by `run.py`;
* the `Run`/`Batch` dataclasses and `Batch.from_dict`;
* the remote status store as an association list from paths to file text;
* `categorize_runs`, `split` and the `finally` block of `dispatch_thread`;
* the `ThreadPoolExecutor`-based dispatcher of `batch` as a step relation.

Remote I/O (fsspec) is modelled by explicit store values threaded through
the functions; randomness (`uuid.uuid4().hex`) is modelled by an injected
name supply `fresh : Nat → String`.
-/

/-! ### Decimal text: model of Python `str` on ints and `int` on strings -/

/-- The character for a decimal digit `d < 10` (`'0'` is code 48). -/
def digitChar10 (d : Nat) : Char := Char.ofNat (48 + d)

/-- Worker for `natDigits`; `fuel` only guides structural recursion and is
irrelevant as long as it exceeds `n` (see `natDigitsAux_irrel`). -/
def natDigitsAux (fuel n : Nat) : List Char :=
  match fuel with
  | 0 => []
  | f + 1 =>
    if n < 10 then [digitChar10 n]
    else natDigitsAux f (n / 10) ++ [digitChar10 (n % 10)]

/-- Decimal digit characters of `n`, most significant first; `natDigits 0 = ['0']`.
This is the digit sequence Python's `str` produces for a nonnegative int. -/
def natDigits (n : Nat) : List Char := natDigitsAux (n + 1) n

/-- Model of Python `str` on a nonnegative integer. -/
def pyStrNat (n : Nat) : String := String.mk (natDigits n)

/-- Model of Python `str` on an int: a minus sign followed by the decimal
digits of the absolute value for negative ints, plain digits otherwise. -/
def pyStrInt (i : Int) : String :=
  if i < 0 then String.mk ('-' :: natDigits i.natAbs) else String.mk (natDigits i.toNat)

/-- `true` exactly on the characters `'0'`..`'9'`. -/
def isDigit10 (c : Char) : Bool := 48 ≤ c.toNat && c.toNat ≤ 57

/-- Numeric value of a decimal digit string, most significant digit first. -/
def digitsToNat (l : List Char) : Nat := l.foldl (fun acc c => acc * 10 + (c.toNat - 48)) 0

/-- Parse a nonempty all-digit character list; `none` otherwise. -/
def parseDigits (l : List Char) : Option Nat :=
  if l ≠ [] ∧ l.all isDigit10 then some (digitsToNat l) else none

/-- Model of Python `int` applied to a string: an optional sign followed by
decimal digits.  (Python's `int` additionally strips whitespace and allows
underscore separators; those forms are never produced by `str` and are not
modelled.)  `none` models `int` raising `ValueError`. -/
def pyInt (s : String) : Option Int :=
  match s.data with
  | [] => none
  | c :: rest =>
    if c = '-' then (parseDigits rest).map (fun n => -(Int.ofNat n))
    else if c = '+' then (parseDigits rest).map (fun n => Int.ofNat n)
    else (parseDigits (c :: rest)).map (fun n => Int.ofNat n)

/-! ### Path joining: model of `os.path.join` on two arguments -/

/-- `listStarts s p` is `true` when `p` is a prefix of `s` (explicit
recursion so that the kernel can evaluate it on literals). -/
def listStarts : List Char → List Char → Bool
  | _, [] => true
  | [], _ :: _ => false
  | a :: as, b :: bs => a = b && listStarts as bs

/-- Model of Python `str.startswith`. -/
def strStarts (s p : String) : Bool := listStarts s.data p.data

/-- Model of Python `str.endswith`. -/
def strEnds (s p : String) : Bool := listStarts s.data.reverse p.data.reverse

/-- Model of Python `os.path.join(a, b)` for two components: `b` wins when
absolute, otherwise `a` and `b` are glued with exactly one `/`. -/
def osJoin (a b : String) : String :=
  if strStarts b "/" then b
  else if a = "" then b
  else if strEnds a "/" then a ++ b
  else a ++ "/" ++ b

/-! ### Data model: the `Run` and `Batch` dataclasses -/

/-- The `Run` dataclass of `run.py` (field order as in the source). -/
structure Run where
  remote_output_path : String
  cmd : String
  local_results_dir : String
  status_code : Option Int := none
  status : Option String := none
deriving Repr, DecidableEq, Inhabited

/-- The `Batch` dataclass of `run.py`. -/
structure Batch where
  runs : List Run
  remote_output_path : String
  nprocs : Nat := 16
deriving Repr, DecidableEq, Inhabited

/-- `RunStatus.COMPLETED` from the source. -/
def RunStatus.COMPLETED : String := "completed"

/-- `RunStatus.ERROR` from the source. -/
def RunStatus.ERROR : String := "error"

/-- One entry of the `"runs"` list of a serialized batch dict.  `none`
models an absent key (or JSON `null`); `some ""` models an empty string,
which is falsy in Python just like an absent key. -/
structure RunDict where
  cmd : String
  remote_output_path : Option String := none
  local_results_dir : Option String := none
  status_code : Option Int := none
  status : Option String := none
deriving Repr, DecidableEq, Inhabited

/-- A serialized batch dict as consumed by `Batch.from_dict`. -/
structure BatchDict where
  runs : List RunDict
  remote_output_path : String
  nprocs : Option Nat := none
deriving Repr, DecidableEq, Inhabited

/-- Python falsiness of an optional string: absent, `None` or `""`. -/
def optStrFalsy : Option String → Bool
  | none => true
  | some s => s.isEmpty

/-- `Batch.from_dict` from `run.py`.  `fresh i` supplies the
`uuid.uuid4().hex` value generated for the run at index `i` (the source
draws a fresh random hex string there); everything else is verbatim:
a falsy `local_results_dir` becomes `/tmp/{hex}/`, a falsy
`remote_output_path` becomes `join(batch_root, str(idx))`, and a missing
`nprocs` key defaults to 16. -/
def Batch.from_dict (fresh : Nat → String) (input_dict : BatchDict) : Batch :=
  let runs := input_dict.runs.enum.map (fun p =>
    let idx := p.1
    let rdict := p.2
    let lrd : String :=
      if optStrFalsy rdict.local_results_dir then "/tmp/" ++ fresh idx ++ "/"
      else rdict.local_results_dir.getD ""
    let rop : String :=
      if optStrFalsy rdict.remote_output_path then
        osJoin input_dict.remote_output_path (pyStrNat idx)
      else rdict.remote_output_path.getD ""
    { remote_output_path := rop, cmd := rdict.cmd, local_results_dir := lrd,
      status_code := rdict.status_code, status := rdict.status })
  { runs := runs, remote_output_path := input_dict.remote_output_path,
    nprocs := input_dict.nprocs.getD 16 }

/-! ### Decimal roundtrip: `int(str(i)) == i` -/

theorem natDigitsAux_irrel :
    ∀ (f1 n f2 : Nat), n < f1 → n < f2 → natDigitsAux f1 n = natDigitsAux f2 n := by
  intro f1
  induction f1 with
  | zero => intro n f2 h1 _; omega
  | succ g ih =>
    intro n f2 h1 h2
    cases f2 with
    | zero => omega
    | succ g2 =>
      show (if n < 10 then [digitChar10 n] else natDigitsAux g (n / 10) ++ [digitChar10 (n % 10)])
        = (if n < 10 then [digitChar10 n] else natDigitsAux g2 (n / 10) ++ [digitChar10 (n % 10)])
      split
      · rfl
      · rename_i h
        have hlt : n / 10 < n := Nat.div_lt_self (by omega) (by omega)
        rw [ih (n / 10) g2 (by omega) (by omega)]

theorem natDigits_unfold (n : Nat) :
    natDigits n = if n < 10 then [digitChar10 n]
      else natDigits (n / 10) ++ [digitChar10 (n % 10)] := by
  show natDigitsAux (n + 1) n = _
  show (if n < 10 then [digitChar10 n] else natDigitsAux n (n / 10) ++ [digitChar10 (n % 10)]) = _
  split
  · rfl
  · rename_i h
    have hlt : n / 10 < n := Nat.div_lt_self (by omega) (by omega)
    rw [natDigitsAux_irrel n (n / 10) (n / 10 + 1) (by omega) (by omega)]
    rfl

theorem digitChar10_isDigit {d : Nat} (hd : d < 10) : isDigit10 (digitChar10 d) = true := by
  interval_cases d <;> decide

theorem digitChar10_toNat {d : Nat} (hd : d < 10) : (digitChar10 d).toNat = 48 + d := by
  interval_cases d <;> decide

theorem natDigits_ne_nil (n : Nat) : natDigits n ≠ [] := by
  rw [natDigits_unfold]
  split <;> simp

theorem natDigits_all_digits (n : Nat) : (natDigits n).all isDigit10 = true := by
  induction n using Nat.strong_induction_on with
  | _ n ih =>
    rw [natDigits_unfold]
    split
    · simp [digitChar10_isDigit, *]
    · rename_i h
      simp only [List.all_append, List.all_cons, List.all_nil, Bool.and_eq_true, and_true]
      refine ⟨ih (n / 10) (Nat.div_lt_self (by omega) (by omega)), ?_⟩
      exact digitChar10_isDigit (Nat.mod_lt _ (by omega))

theorem digitsToNat_natDigits_aux (n : Nat) :
    ∀ acc : Nat, (natDigits n).foldl (fun acc c => acc * 10 + (c.toNat - 48)) acc =
      acc * 10 ^ (natDigits n).length + n := by
  induction n using Nat.strong_induction_on with
  | _ n ih =>
    intro acc
    rw [natDigits_unfold]
    split
    · rename_i h
      simp only [List.foldl_cons, List.foldl_nil, List.length_cons, List.length_nil]
      rw [digitChar10_toNat h]
      omega
    · rename_i h
      rw [List.foldl_append]
      rw [ih (n / 10) (Nat.div_lt_self (by omega) (by omega)) acc]
      simp only [List.foldl_cons, List.foldl_nil, List.length_append, List.length_cons,
        List.length_nil]
      rw [digitChar10_toNat (Nat.mod_lt _ (by omega))]
      have : acc * 10 ^ ((natDigits (n / 10)).length + (0 + 1)) =
          acc * 10 ^ (natDigits (n / 10)).length * 10 := by
        rw [pow_succ]; ring
      omega

theorem digitsToNat_natDigits (n : Nat) : digitsToNat (natDigits n) = n := by
  have := digitsToNat_natDigits_aux n 0
  simpa [digitsToNat] using this

theorem parseDigits_natDigits (n : Nat) : parseDigits (natDigits n) = some n := by
  rw [parseDigits]
  rw [if_pos ⟨natDigits_ne_nil n, natDigits_all_digits n⟩]
  rw [digitsToNat_natDigits]

theorem natDigits_head_digit (n : Nat) :
    ∀ c rest, natDigits n = c :: rest → isDigit10 c = true := by
  intro c rest h
  have hall := natDigits_all_digits n
  rw [h] at hall
  simp only [List.all_cons, Bool.and_eq_true] at hall
  exact hall.1

theorem pyInt_cons (c : Char) (rest : List Char) :
    pyInt (String.mk (c :: rest)) =
      (if c = '-' then (parseDigits rest).map (fun n => -(Int.ofNat n))
       else if c = '+' then (parseDigits rest).map (fun n => Int.ofNat n)
       else (parseDigits (c :: rest)).map (fun n => Int.ofNat n)) := rfl

/-- Python roundtrip: parsing the text `str` produces for an int gives the
int back.  This is the glue between the Executor's status write and the
Classifier's status parse. -/
theorem pyInt_pyStrInt (i : Int) : pyInt (pyStrInt i) = some i := by
  rw [pyStrInt]
  split
  · rename_i hneg
    rw [pyInt_cons, if_pos rfl, parseDigits_natDigits]
    simp only [Option.map_some']
    congr 1
    simp only [Int.ofNat_eq_coe]
    omega
  · rename_i hnn
    obtain ⟨c, rest, hc⟩ := List.exists_cons_of_ne_nil (natDigits_ne_nil i.toNat)
    have hd := natDigits_head_digit i.toNat c rest hc
    have hc1 : ¬(c = '-') := by
      intro h; rw [h] at hd; simp [isDigit10] at hd
    have hc2 : ¬(c = '+') := by
      intro h; rw [h] at hd; simp [isDigit10] at hd
    rw [hc, pyInt_cons, if_neg hc1, if_neg hc2, ← hc, parseDigits_natDigits]
    simp only [Option.map_some']
    congr 1
    simp only [Int.ofNat_eq_coe]
    omega

/-! ### C10: `Batch.from_dict` default-filling -/

theorem enumFrom_map_get? {α β : Type} (f : Nat × α → β) :
    ∀ (l : List α) (k i : Nat),
      ((List.enumFrom k l).map f).get? i = (l.get? i).map (fun a => f (k + i, a)) := by
  intro l
  induction l with
  | nil => intro k i; simp
  | cons a t ih =>
    intro k i
    cases i with
    | zero => simp [List.enumFrom]
    | succ j =>
      simp only [List.enumFrom, List.map_cons, List.get?_cons_succ]
      rw [ih (k + 1) j]
      have : k + 1 + j = k + (j + 1) := by omega
      rw [this]

/-- C10: `Batch.from_dict` fills omitted fields with defaults: a missing
`nprocs` key yields concurrency limit 16; a run whose `remote_output_path`
is missing or empty receives `join(batch.remote_output_path, str(i))` for
its zero-based position `i`; a run whose `local_results_dir` is missing or
empty receives the freshly generated `/tmp/{hex}/` path for position `i`;
present (truthy) fields and the run list length are preserved. -/
theorem batch_from_dict_defaults (fresh : Nat → String) (d : BatchDict) :
    (Batch.from_dict fresh d).nprocs = d.nprocs.getD 16 ∧
    (Batch.from_dict fresh d).remote_output_path = d.remote_output_path ∧
    (Batch.from_dict fresh d).runs.length = d.runs.length ∧
    ∀ i rd, d.runs.get? i = some rd →
      (Batch.from_dict fresh d).runs.get? i = some
        { remote_output_path :=
            if optStrFalsy rd.remote_output_path then osJoin d.remote_output_path (pyStrNat i)
            else rd.remote_output_path.getD "",
          cmd := rd.cmd,
          local_results_dir :=
            if optStrFalsy rd.local_results_dir then "/tmp/" ++ fresh i ++ "/"
            else rd.local_results_dir.getD "",
          status_code := rd.status_code,
          status := rd.status } := by
  refine ⟨rfl, rfl, ?_, ?_⟩
  · simp [Batch.from_dict]
  · intro i rd h
    simp only [Batch.from_dict, List.enum]
    rw [enumFrom_map_get?, h]
    simp

/-- Witness for C10 at a concrete one-run batch dict with all optional
fields absent. -/
theorem batch_from_dict_defaults_witness :
    (([{ cmd := "echo 1" }] : List RunDict).get? 0 = some { cmd := "echo 1" }) ∧
    (Batch.from_dict (fun _ => "cafe")
        { runs := [{ cmd := "echo 1" }], remote_output_path := "mem://out" }).runs.get? 0 =
      some { remote_output_path := "mem://out/0", cmd := "echo 1",
             local_results_dir := "/tmp/cafe/" } := by
  refine ⟨rfl, ?_⟩
  have h := (batch_from_dict_defaults (fun _ => "cafe")
    { runs := [{ cmd := "echo 1" }], remote_output_path := "mem://out" }).2.2.2 0
    { cmd := "echo 1" } rfl
  rw [h]
  decide

/-! ### Remote status store and `categorize_runs` -/

/-- The per-run status files as seen through the bulk listing of
`categorize_runs` (`run.py` lines 161-167): an association list from
`status_code` file paths to their text contents, most recent write first.
This is the `mapping = dict(zip(status_code_files, status_codes))` value
obtained from the single glob listing plus bulk fetch. -/
abbrev RemoteStore := List (String × String)

/-- First-match lookup in the store (models a `dict`/filesystem read). -/
def lookupStore : RemoteStore → String → Option String
  | [], _ => none
  | (k, v) :: rest, p => if k = p then some v else lookupStore rest p

/-- Overwriting write (models `fsspec.open(path, "w")` plus `write`). -/
def writeStore (store : RemoteStore) (p v : String) : RemoteStore := (p, v) :: store

/-- `join(r.remote_output_path, "status_code")` from `run.py`. -/
def Run.statusCodePath (r : Run) : String := osJoin r.remote_output_path "status_code"

/-- `categorize_runs` from `run.py` (lines 158-185), starting from the
`mapping` built by the bulk listing: walk the run list in order; a run
whose status path is not in the mapping goes to `incomplete`; otherwise
its content is parsed with `int` (a parse failure raises `ValueError`,
modelled as an overall `none`), the run is annotated in place with
`status_code` and `status`, and appended to `completed` when the code is 0
and to `failures` otherwise. -/
def categorize_runs (mapping : RemoteStore) : List Run → Option (List Run × List Run × List Run)
  | [] => some ([], [], [])
  | r :: rs =>
    match categorize_runs mapping rs with
    | none => none
    | some (incomplete, failures, completed) =>
      match lookupStore mapping r.statusCodePath with
      | none => some (r :: incomplete, failures, completed)
      | some content =>
        match pyInt content with
        | none => none
        | some status_code =>
          if status_code = 0 then
            some (incomplete, failures,
              ({ r with
                 status_code := some status_code,
                 status := some RunStatus.COMPLETED } : Run) :: completed)
          else
            some (incomplete,
              ({ r with
                 status_code := some status_code,
                 status := some RunStatus.ERROR } : Run) :: failures, completed)

/-- The status file content the listing holds for `r`, if any. -/
def runStatusEntry (mapping : RemoteStore) (r : Run) : Option String :=
  lookupStore mapping r.statusCodePath

/-- The parsed status code for `r`: its listed content parsed by `int`. -/
def runParsedCode (mapping : RemoteStore) (r : Run) : Option Int :=
  (runStatusEntry mapping r).bind pyInt

/-- The in-place annotation `categorize_runs` applies to a run it
resolves; a run with no (parseable) status entry is left untouched. -/
def annotateRun (mapping : RemoteStore) (r : Run) : Run :=
  match runParsedCode mapping r with
  | none => r
  | some c =>
    { r with
      status_code := some c,
      status := some (if c = 0 then RunStatus.COMPLETED else RunStatus.ERROR) }

/-- No `status_code` file for `r` appears in the bulk listing. -/
def isIncompleteRun (mapping : RemoteStore) (r : Run) : Bool :=
  (runStatusEntry mapping r).isNone

/-- `r`'s status file is listed and parses as the integer 0. -/
def isCompletedRun (mapping : RemoteStore) (r : Run) : Bool :=
  runParsedCode mapping r = some 0

/-- `r`'s status file is listed and parses as a nonzero integer. -/
def isFailedRun (mapping : RemoteStore) (r : Run) : Bool :=
  match runParsedCode mapping r with
  | some c => decide (c ≠ 0)
  | none => false

/-- The identity of a run, independent of the mutable status annotations:
its remote output path, command and local results directory. -/
def Run.core (r : Run) : String × String × String :=
  (r.remote_output_path, r.cmd, r.local_results_dir)

/-! ### C3: the classifier partition -/

theorem perm_shuffle1 {α : Type} (a : α) (A B C : List α) :
    (A ++ B ++ a :: C).Perm (a :: (A ++ B ++ C)) := by
  have h1 : A ++ B ++ a :: C = (A ++ B) ++ a :: C := by rw [List.append_assoc]
  have h2 : a :: (A ++ B ++ C) = a :: ((A ++ B) ++ C) := by rw [List.append_assoc]
  rw [h1, h2]
  exact List.perm_middle

theorem perm_shuffle2 {α : Type} (a : α) (A B C : List α) :
    (A ++ (a :: B) ++ C).Perm (a :: (A ++ B ++ C)) := by
  have h1 : (A ++ (a :: B)).Perm (a :: (A ++ B)) := List.perm_middle
  have h2 := h1.append_right C
  refine h2.trans ?_
  simp [List.append_assoc]

/-- C3: whenever `categorize_runs` returns (i.e. every listed status file
it needs parses as an integer), the three returned lists are exactly the
input runs with no listed status file (in order, unannotated), the runs
whose file parses as a nonzero integer (in order, annotated), and the
runs whose file parses as 0 (in order, annotated); together the three
lists contain every input run exactly once (their concatenation is a
permutation of the input up to the status annotations), and the three
membership conditions are mutually exclusive, so the lists are disjoint. -/
theorem categorize_runs_partition (mapping : RemoteStore) (runs : List Run)
    (incomplete failures completed : List Run)
    (h : categorize_runs mapping runs = some (incomplete, failures, completed)) :
    incomplete = runs.filter (isIncompleteRun mapping) ∧
    failures = (runs.filter (isFailedRun mapping)).map (annotateRun mapping) ∧
    completed = (runs.filter (isCompletedRun mapping)).map (annotateRun mapping) ∧
    ((incomplete ++ failures ++ completed).map Run.core).Perm (runs.map Run.core) := by
  induction runs generalizing incomplete failures completed with
  | nil =>
    rw [categorize_runs] at h
    simp only [Option.some.injEq, Prod.mk.injEq] at h
    obtain ⟨rfl, rfl, rfl⟩ := h
    exact ⟨rfl, rfl, rfl, by simp⟩
  | cons r rs ih =>
    rw [categorize_runs] at h
    split at h
    · exact absurd h (by simp)
    · split at h
      · rename_i x1 i' f' c' htail x2 hl
        simp only [Option.some.injEq, Prod.mk.injEq] at h
        obtain ⟨rfl, rfl, rfl⟩ := h
        obtain ⟨ih1, ih2, ih3, ihp⟩ := ih i' f' c' htail
        refine ⟨?_, ?_, ?_, ?_⟩
        · simp [List.filter_cons, isIncompleteRun, runStatusEntry, hl, ih1]
        · simp [List.filter_cons, isFailedRun, runParsedCode, runStatusEntry, hl, ih2]
        · simp [List.filter_cons, isCompletedRun, runParsedCode, runStatusEntry, hl, ih3]
        · simp only [List.cons_append, List.map_cons, List.map_append]
          refine List.Perm.cons _ ?_
          simpa [List.map_append] using ihp
      · split at h
        · exact absurd h (by simp)
        · split at h
          · rename_i x1 i' f' c' htail x2 content hl x3 code hp hc
            simp only [Option.some.injEq, Prod.mk.injEq] at h
            obtain ⟨rfl, rfl, rfl⟩ := h
            subst hc
            obtain ⟨ih1, ih2, ih3, ihp⟩ := ih i' f' c' htail
            refine ⟨?_, ?_, ?_, ?_⟩
            · simp [List.filter_cons, isIncompleteRun, runStatusEntry, hl, ih1]
            · simp [List.filter_cons, isFailedRun, runParsedCode, runStatusEntry, hl, hp, ih2]
            · simp [List.filter_cons, isCompletedRun, runParsedCode, runStatusEntry, hl, hp, ih3,
                annotateRun]
            · simp only [List.map_append, List.map_cons]
              refine (perm_shuffle1 _ _ _ _).trans ?_
              refine List.Perm.cons _ ?_
              simpa [List.map_append] using ihp
          · rename_i x1 i' f' c' htail x2 content hl x3 code hp hc
            simp only [Option.some.injEq, Prod.mk.injEq] at h
            obtain ⟨rfl, rfl, rfl⟩ := h
            obtain ⟨ih1, ih2, ih3, ihp⟩ := ih i' f' c' htail
            refine ⟨?_, ?_, ?_, ?_⟩
            · simp [List.filter_cons, isIncompleteRun, runStatusEntry, hl, ih1]
            · simp [List.filter_cons, isFailedRun, runParsedCode, runStatusEntry, hl, hp, hc, ih2,
                annotateRun]
            · simp [List.filter_cons, isCompletedRun, runParsedCode, runStatusEntry, hl, hp, hc,
                ih3]
            · simp only [List.map_append, List.map_cons]
              refine (perm_shuffle2 _ _ _ _).trans ?_
              refine List.Perm.cons _ ?_
              simpa [List.map_append] using ihp

/-- Sample run 0 of the spec's scenario batch (status file `"0"`). -/
def sampleRun0 : Run :=
  { remote_output_path := "mem://out/0", cmd := "echo 1", local_results_dir := "/tmp/a/" }

/-- Sample run 1 of the spec's scenario batch (no status file). -/
def sampleRun1 : Run :=
  { remote_output_path := "mem://out/1", cmd := "echo 2", local_results_dir := "/tmp/b/" }

/-- Sample run 2 of the spec's scenario batch (status file `"1"`). -/
def sampleRun2 : Run :=
  { remote_output_path := "mem://out/2", cmd := "exit 1", local_results_dir := "/tmp/c/" }

/-- The spec's scenario run list. -/
def sampleRuns : List Run := [sampleRun0, sampleRun1, sampleRun2]

/-- The spec's scenario remote status listing: run 0 completed, run 1
never wrote a status file, run 2 exited 1. -/
def sampleMapping : RemoteStore :=
  [("mem://out/0/status_code", "0"), ("mem://out/2/status_code", "1")]

/-- Witness for C3 on the spec's scenario store: incomplete `[run1]`,
failures `[run2]`, completed `[run0]`. -/
theorem categorize_runs_partition_witness :
    [sampleRun1] = sampleRuns.filter (isIncompleteRun sampleMapping) ∧
    [annotateRun sampleMapping sampleRun2] =
      (sampleRuns.filter (isFailedRun sampleMapping)).map (annotateRun sampleMapping) ∧
    [annotateRun sampleMapping sampleRun0] =
      (sampleRuns.filter (isCompletedRun sampleMapping)).map (annotateRun sampleMapping) ∧
    (([sampleRun1] ++ [annotateRun sampleMapping sampleRun2] ++
        [annotateRun sampleMapping sampleRun0]).map Run.core).Perm (sampleRuns.map Run.core) :=
  categorize_runs_partition sampleMapping sampleRuns _ _ _ (by decide)

/-! ### C8: classifier idempotence -/

/-- C8: `categorize_runs` mutates its argument runs in place (annotating
resolved runs with `status_code`/`status`), so running it twice on the
same run list against an unchanged remote listing means the second call
receives the annotated runs.  Whenever the first call returns the triple
`t`, the second call returns exactly the same triple `t`: same runs in
`incomplete`, `failures` and `completed`, in the same order, with the
same annotations. -/
theorem categorize_runs_idempotent (mapping : RemoteStore) (runs : List Run)
    (t : List Run × List Run × List Run)
    (h : categorize_runs mapping runs = some t) :
    categorize_runs mapping (runs.map (annotateRun mapping)) = some t := by
  induction runs generalizing t with
  | nil => simpa [categorize_runs] using h
  | cons r rs ih =>
    rw [categorize_runs] at h
    split at h
    · exact absurd h (by simp)
    · split at h
      · rename_i x1 i' f' c' htail x2 hl
        injection h with h
        subst h
        have ha : annotateRun mapping r = r := by
          simp [annotateRun, runParsedCode, runStatusEntry, hl]
        rw [List.map_cons, ha, categorize_runs, ih _ htail, hl]
      · split at h
        · exact absurd h (by simp)
        · split at h
          · rename_i x1 i' f' c' htail x2 content hl x3 code hp hc
            injection h with h
            subst h
            subst hc
            have ha : annotateRun mapping r =
                { r with
                  status_code := some 0,
                  status := some RunStatus.COMPLETED } := by
              simp [annotateRun, runParsedCode, runStatusEntry, hl, hp]
            have hpath : ({ r with
                status_code := some 0,
                status := some RunStatus.COMPLETED } : Run).statusCodePath = r.statusCodePath :=
              rfl
            rw [List.map_cons, ha, categorize_runs, ih _ htail]
            simp only [hpath, hl, hp]
            simp
          · rename_i x1 i' f' c' htail x2 content hl x3 code hp hc
            injection h with h
            subst h
            have ha : annotateRun mapping r =
                { r with
                  status_code := some code,
                  status := some RunStatus.ERROR } := by
              simp [annotateRun, runParsedCode, runStatusEntry, hl, hp, hc]
            have hpath : ({ r with
                status_code := some code,
                status := some RunStatus.ERROR } : Run).statusCodePath = r.statusCodePath :=
              rfl
            rw [List.map_cons, ha, categorize_runs, ih _ htail]
            simp only [hpath, hl, hp]
            simp [if_neg hc]

/-- Witness for C8 on the spec's scenario store and run list. -/
theorem categorize_runs_idempotent_witness :
    categorize_runs sampleMapping (sampleRuns.map (annotateRun sampleMapping)) =
      some ([sampleRun1],
        [{ sampleRun2 with status_code := some 1, status := some RunStatus.ERROR }],
        [{ sampleRun0 with status_code := some 0, status := some RunStatus.COMPLETED }]) :=
  categorize_runs_idempotent sampleMapping sampleRuns _ (by decide)

/-! ### The Run Executor: the `finally` block of `dispatch_thread` -/

/-- What happened inside one `dispatch_thread` invocation, as far as its
`finally` block can observe (`run.py` lines 100-136):
`exitcode` is the value of the `exitcode` variable when the `finally`
block runs (`some e` when the subprocess was waited to completion with
exit code `e`; `none` models Python `None`, left when an exception
escaped the `try` body before the wait loop finished);
`bodyRaises` records whether an exception escaped the `try` body;
`localDirExists` is the `exists(local_results_dir)` test guarding the
result sync; `syncRaises` records whether `_rsync` raises. -/
structure ExecOutcome where
  exitcode : Option Int
  bodyRaises : Bool
  localDirExists : Bool
  syncRaises : Bool
deriving Repr, DecidableEq

/-- The text `str(exitcode)` written to the status file: decimal digits
for an int, `"None"` when the variable still holds Python `None`. -/
def statusText : Option Int → String
  | some e => pyStrInt e
  | none => "None"

/-- The effect of `dispatch_thread`'s `finally` block (`run.py` lines
129-136) on the remote store, returning the final store and whether the
call raises.  The block releases the worker rank, then (when the local
results directory exists) runs `_rsync`, and only then writes
`str(exitcode)` to `join(remote_output_path, "status_code")`: when the
sync raises, the write is never reached and the exception propagates;
otherwise the write happens and any exception from the `try` body
propagates after it.  (The files `_rsync` itself copies under `results/`
are not modelled, only whether it raises.) -/
def dispatch_thread (remote_output_path : String) (o : ExecOutcome)
    (store : RemoteStore) : RemoteStore × Bool :=
  if o.localDirExists && o.syncRaises then
    (store, true)
  else
    (writeStore store (osJoin remote_output_path "status_code") (statusText o.exitcode),
     o.bodyRaises)

/-- C4 counterexample: the subprocess running to completion does not by
itself guarantee a `status_code` file.  Here the subprocess ran to
completion with exit code 0 (`exitcode = some 0`, no exception escaped
the `try` body), but the result sync raises, so the `finally` block
aborts before the status write: afterwards no `status_code` file exists
for the run, refuting the claim as stated at this concrete outcome. -/
theorem dispatch_thread_completed_subprocess_no_status_file :
    (({ exitcode := some 0, bodyRaises := false, localDirExists := true,
        syncRaises := true } : ExecOutcome).exitcode = some 0) ∧
    lookupStore (dispatch_thread "mem://out/1"
        { exitcode := some 0, bodyRaises := false, localDirExists := true,
          syncRaises := true } []).1
        (osJoin "mem://out/1" "status_code") = none := by
  decide

/-- C4 (amended): whenever the subprocess of a `dispatch_thread`
invocation runs to completion with exit code `e` AND the invocation
itself then completes without raising (in particular the result sync did
not raise — the counterexample above shows the claim fails without this
condition), the remote `status_code` file afterwards holds exactly
`str(e)`, and parsing that content as an integer gives back `e`, the
subprocess's actual exit code. -/
theorem dispatch_thread_status_write (remote_output_path : String) (o : ExecOutcome)
    (store : RemoteStore) (e : Int)
    (hexit : o.exitcode = some e)
    (hok : (dispatch_thread remote_output_path o store).2 = false) :
    lookupStore (dispatch_thread remote_output_path o store).1
        (osJoin remote_output_path "status_code") = some (pyStrInt e) ∧
    pyInt (pyStrInt e) = some e := by
  refine ⟨?_, pyInt_pyStrInt e⟩
  rw [dispatch_thread] at hok ⊢
  split
  · rename_i hcond
    rw [if_pos hcond] at hok
    simp at hok
  · simp [writeStore, lookupStore, hexit, statusText]

/-- Witness for C4: a run whose subprocess exited with code 1 and whose
sync succeeded; the status file holds `"1"`. -/
theorem dispatch_thread_status_write_witness :
    (({ exitcode := some 1, bodyRaises := false, localDirExists := true,
        syncRaises := false } : ExecOutcome).exitcode = some 1) ∧
    ((dispatch_thread "mem://out/2"
        { exitcode := some 1, bodyRaises := false, localDirExists := true,
          syncRaises := false } []).2 = false) ∧
    (lookupStore (dispatch_thread "mem://out/2"
        { exitcode := some 1, bodyRaises := false, localDirExists := true,
          syncRaises := false } []).1
        (osJoin "mem://out/2" "status_code") = some (pyStrInt 1) ∧
     pyInt (pyStrInt 1) = some 1) :=
  ⟨rfl, rfl,
    dispatch_thread_status_write "mem://out/2"
      { exitcode := some 1, bodyRaises := false, localDirExists := true,
        syncRaises := false } [] 1 rfl rfl⟩

/-- C2 exhibit: the `status_code` write is NOT unconditional.  It sits in
the `finally` block, but `run.py` places it after the `_rsync` result
sync inside that same block, so when the sync raises the write is
skipped: here the subprocess exited cleanly with code 0, `_rsync` raises,
and afterwards no `status_code` file exists while the exception
propagates.  This contradicts the claim that the write occurs even if the
result sync fails. -/
theorem dispatch_thread_syncfail_skips_write :
    lookupStore (dispatch_thread "mem://out/0"
        { exitcode := some 0, bodyRaises := false, localDirExists := true,
          syncRaises := true } []).1
        (osJoin "mem://out/0" "status_code") = none ∧
    (dispatch_thread "mem://out/0"
        { exitcode := some 0, bodyRaises := false, localDirExists := true,
          syncRaises := true } []).2 = true := by
  decide

/-! ### C1: the Batch Dispatcher as a bounded thread pool -/

/-- A state of the dispatcher of `batch` (`run.py` lines 139-155): run
indices still queued for a worker (in submission order), indices whose
`dispatch_thread` is currently executing, and indices already finished. -/
structure PoolState where
  pending : List Nat
  inflight : List Nat
  done : List Nat
deriving Repr, DecidableEq

/-- One scheduling step of `ThreadPoolExecutor(nprocs)` as used by
`batch`: a queued run may start only when one of the `nprocs` worker
threads is free (fewer than `nprocs` runs in flight), and runs start in
submission order; any in-flight run may finish.  Completion order is
unconstrained. -/
inductive PoolStep (nprocs : Nat) : PoolState → PoolState → Prop
  | start (r : Nat) (pending inflight done : List Nat)
      (hfree : inflight.length < nprocs) :
      PoolStep nprocs ⟨r :: pending, inflight, done⟩ ⟨pending, r :: inflight, done⟩
  | finish (r : Nat) (pending l1 l2 done : List Nat) :
      PoolStep nprocs ⟨pending, l1 ++ r :: l2, done⟩ ⟨pending, l1 ++ l2, r :: done⟩

/-- The initial dispatcher state for a batch: `batch` submits one
`dispatch_thread` task per run, in order, so every run index is queued
exactly once and nothing has started. -/
def batchInit (b : Batch) : PoolState :=
  { pending := List.range b.runs.length, inflight := [], done := [] }

/-- The states the dispatcher can reach while executing batch `b`. -/
def batchReachable (b : Batch) (s : PoolState) : Prop :=
  Relation.ReflTransGen (PoolStep b.nprocs) (batchInit b) s

theorem poolStep_inv {nprocs : Nat} {N : Nat} {s s' : PoolState}
    (hstep : PoolStep nprocs s s')
    (hlen : s.inflight.length ≤ nprocs)
    (hperm : (s.pending ++ s.inflight ++ s.done).Perm (List.range N)) :
    s'.inflight.length ≤ nprocs ∧
    (s'.pending ++ s'.inflight ++ s'.done).Perm (List.range N) := by
  cases hstep with
  | start r pending inflight done hfree =>
    refine ⟨?_, ?_⟩
    · simp only [List.length_cons]
      omega
    · refine List.Perm.trans (List.perm_iff_count.mpr ?_) hperm
      intro a
      simp [List.count_append, List.count_cons]
      omega
  | finish r pending l1 l2 done =>
    refine ⟨?_, ?_⟩
    · simp only [List.length_append, List.length_cons] at hlen ⊢
      omega
    · refine List.Perm.trans (List.perm_iff_count.mpr ?_) hperm
      intro a
      simp [List.count_append, List.count_cons]
      omega

/-- C1: in every state the dispatcher of `batch` can reach, at most
`nprocs` runs are simultaneously in flight, and the queued, in-flight and
finished run indices together form a permutation of `0..N-1` — since
`List.range N` has no duplicates, every run is, at every moment, in
exactly one of the three phases, so no run is ever dispatched twice and
none is skipped; in a final state (nothing pending or in flight, which
`batch` waits for) every run has therefore been executed exactly once. -/
theorem batch_dispatch_exactly_once_bounded (b : Batch) (s : PoolState)
    (h : batchReachable b s) :
    s.inflight.length ≤ b.nprocs ∧
    (s.pending ++ s.inflight ++ s.done).Perm (List.range b.runs.length) := by
  induction h with
  | refl =>
    constructor
    · simp [batchInit]
    · simp only [batchInit, List.append_nil]
      exact List.Perm.refl _
  | tail hr hstep ih => exact poolStep_inv hstep ih.1 ih.2

/-- A two-run batch with concurrency limit 1. -/
def sampleBatch : Batch :=
  { runs := [sampleRun0, sampleRun1], remote_output_path := "mem://out", nprocs := 1 }

/-- Witness for C1: the state of `sampleBatch` after run 0 started (run 1
still queued) is reachable, has one run in flight (within the limit 1),
and holds each of the two run indices exactly once. -/
theorem batch_dispatch_exactly_once_bounded_witness :
    ({ pending := [1], inflight := [0], done := [] } : PoolState).inflight.length ≤
      sampleBatch.nprocs ∧
    (({ pending := [1], inflight := [0], done := [] } : PoolState).pending ++
      ({ pending := [1], inflight := [0], done := [] } : PoolState).inflight ++
      ({ pending := [1], inflight := [0], done := [] } : PoolState).done).Perm
      (List.range sampleBatch.runs.length) :=
  batch_dispatch_exactly_once_bounded sampleBatch
    { pending := [1], inflight := [0], done := [] }
    (Relation.ReflTransGen.single (PoolStep.start 0 [1] [] [] (by decide)))

/-! ### `cytoolz.partition_all` -/

/-- Worker for `partition_all`; `fuel` only guides structural recursion
and is irrelevant as long as it exceeds `l.length`. -/
def partitionAllAux {α : Type} [DecidableEq α] (fuel n : Nat) (l : List α) : List (List α) :=
  match fuel with
  | 0 => []
  | f + 1 =>
    if n = 0 ∨ l = [] then [] else l.take n :: partitionAllAux f n (l.drop n)

/-- `cytoolz.partition_all(n, seq)`: consecutive chunks of `n` elements,
the last chunk possibly shorter; with `n = 0` the iterator yields
nothing. -/
def partition_all {α : Type} [DecidableEq α] (n : Nat) (l : List α) : List (List α) :=
  partitionAllAux (l.length + 1) n l

theorem partitionAllAux_irrel {α : Type} [DecidableEq α] :
    ∀ (f1 n : Nat) (l : List α) (f2 : Nat), l.length < f1 → l.length < f2 →
      partitionAllAux f1 n l = partitionAllAux f2 n l := by
  intro f1
  induction f1 with
  | zero => intro n l f2 h1 _; omega
  | succ g ih =>
    intro n l f2 h1 h2
    cases f2 with
    | zero => omega
    | succ g2 =>
      show (if n = 0 ∨ l = [] then [] else l.take n :: partitionAllAux g n (l.drop n))
        = (if n = 0 ∨ l = [] then [] else l.take n :: partitionAllAux g2 n (l.drop n))
      split
      · rfl
      · rename_i h
        push_neg at h
        have hlen : (l.drop n).length = l.length - n := List.length_drop n l
        have hpos : 0 < l.length := List.length_pos.mpr h.2
        rw [ih n (l.drop n) g2 (by omega) (by omega)]

theorem partition_all_unfold {α : Type} [DecidableEq α] (n : Nat) (l : List α) :
    partition_all n l =
      if n = 0 ∨ l = [] then [] else l.take n :: partition_all n (l.drop n) := by
  show partitionAllAux (l.length + 1) n l = _
  show (if n = 0 ∨ l = [] then [] else l.take n :: partitionAllAux l.length n (l.drop n)) = _
  split
  · rfl
  · rename_i h
    push_neg at h
    have hlen : (l.drop n).length = l.length - n := List.length_drop n l
    have hpos : 0 < l.length := List.length_pos.mpr h.2
    have hn : 0 < n := by omega
    congr 1
    exact partitionAllAux_irrel l.length n (l.drop n) ((l.drop n).length + 1)
      (by omega) (by omega)

theorem partition_all_join_aux {α : Type} [DecidableEq α] (n : Nat) (hn : 0 < n) :
    ∀ (k : Nat) (l : List α), l.length ≤ k → (partition_all n l).flatten = l := by
  intro k
  induction k with
  | zero =>
    intro l hl
    have : l = [] := List.eq_nil_of_length_eq_zero (by omega)
    subst this
    rw [partition_all_unfold]
    simp
  | succ m ih =>
    intro l hl
    rw [partition_all_unfold]
    split
    · rename_i h
      rcases h with h | h
      · omega
      · subst h; rfl
    · rename_i h
      push_neg at h
      have hlen : (l.drop n).length = l.length - n := List.length_drop n l
      simp only [List.flatten_cons]
      rw [ih (l.drop n) (by omega)]
      exact List.take_append_drop n l

/-- With a positive chunk size, concatenating the chunks in order gives
back the original list: splitting loses and reorders nothing. -/
theorem partition_all_join {α : Type} [DecidableEq α] (n : Nat) (hn : 0 < n) (l : List α) :
    (partition_all n l).flatten = l :=
  partition_all_join_aux n hn l.length l le_rfl

theorem partition_all_length_aux {α : Type} [DecidableEq α] (n : Nat) (hn : 0 < n) :
    ∀ (k : Nat) (l : List α), l.length ≤ k →
      (partition_all n l).length = (l.length + n - 1) / n := by
  intro k
  induction k with
  | zero =>
    intro l hl
    have : l = [] := List.eq_nil_of_length_eq_zero (by omega)
    subst this
    rw [partition_all_unfold, if_pos (Or.inr rfl)]
    simp only [List.length_nil]
    exact (Nat.div_eq_of_lt (by omega)).symm
  | succ m ih =>
    intro l hl
    rw [partition_all_unfold]
    split
    · rename_i h
      rcases h with h | h
      · omega
      · subst h
        simp only [List.length_nil]
        exact (Nat.div_eq_of_lt (by omega)).symm
    · rename_i h
      push_neg at h
      have hlen : (l.drop n).length = l.length - n := List.length_drop n l
      have hpos : 0 < l.length := List.length_pos.mpr h.2
      simp only [List.length_cons]
      rw [ih (l.drop n) (by omega), hlen]
      rcases le_or_lt l.length n with hc | hc
      · have h1 : l.length - n = 0 := by omega
        have h2 : 0 + n - 1 = n - 1 := by omega
        have h3 : l.length + n - 1 = (l.length - 1) + n := by omega
        rw [h1, h2, Nat.div_eq_of_lt (by omega), h3, Nat.add_div_right _ hn,
          Nat.div_eq_of_lt (by omega)]
      · have h2 : l.length - n + n - 1 = (l.length - n - 1) + n := by omega
        have h3 : l.length + n - 1 = (l.length - 1) + n := by omega
        have h4 : l.length - 1 = (l.length - n - 1) + n := by omega
        rw [h2, h3, Nat.add_div_right _ hn, Nat.add_div_right _ hn, h4,
          Nat.add_div_right _ hn]

/-- With a positive chunk size, the number of chunks is `ceil(M/n)`. -/
theorem partition_all_length {α : Type} [DecidableEq α] (n : Nat) (hn : 0 < n) (l : List α) :
    (partition_all n l).length = (l.length + n - 1) / n :=
  partition_all_length_aux n hn l.length l le_rfl

theorem partition_all_chunk_le {α : Type} [DecidableEq α] (n : Nat) :
    ∀ (k : Nat) (l : List α), l.length ≤ k →
      ∀ c ∈ partition_all n l, c.length ≤ n := by
  intro k
  induction k with
  | zero =>
    intro l hl c hc
    have : l = [] := List.eq_nil_of_length_eq_zero (by omega)
    subst this
    rw [partition_all_unfold] at hc
    simp at hc
  | succ m ih =>
    intro l hl c hc
    rw [partition_all_unfold] at hc
    split at hc
    · simp at hc
    · rename_i h
      push_neg at h
      have hlen : (l.drop n).length = l.length - n := List.length_drop n l
      rcases List.mem_cons.mp hc with h1 | h1
      · subst h1
        simp [List.length_take]
      · exact ih (l.drop n) (by omega) c h1

theorem partition_all_eq_nil_iff {α : Type} [DecidableEq α] (n : Nat) (hn : 0 < n) (l : List α) :
    partition_all n l = [] ↔ l = [] := by
  rw [partition_all_unfold]
  split
  · rename_i h
    rcases h with h | h
    · omega
    · simp [h]
  · rename_i h
    push_neg at h
    simp [h.2]

theorem partition_all_full_chunks {α : Type} [DecidableEq α] (n : Nat) (hn : 0 < n) :
    ∀ (k : Nat) (l : List α), l.length ≤ k →
      ∀ i, i + 1 < (partition_all n l).length →
        ((partition_all n l).getD i []).length = n := by
  intro k
  induction k with
  | zero =>
    intro l hl i hi
    have : l = [] := List.eq_nil_of_length_eq_zero (by omega)
    subst this
    rw [partition_all_unfold] at hi
    simp at hi
  | succ m ih =>
    intro l hl i hi
    rw [partition_all_unfold] at hi ⊢
    split at hi
    · simp at hi
    · rename_i h
      push_neg at h
      have hlen : (l.drop n).length = l.length - n := List.length_drop n l
      have hpos : 0 < l.length := List.length_pos.mpr h.2
      rw [if_neg (by push_neg; exact h)]
      cases i with
      | zero =>
        simp only [List.length_cons] at hi
        have hrest : partition_all n (l.drop n) ≠ [] := by
          intro hnil
          rw [hnil] at hi
          simp at hi
        have hdrop : l.drop n ≠ [] := by
          intro hnil
          exact hrest ((partition_all_eq_nil_iff n hn (l.drop n)).mpr hnil)
        have : 0 < (l.drop n).length := List.length_pos.mpr hdrop
        simp only [List.getD_cons_zero, List.length_take]
        omega
      | succ j =>
        simp only [List.length_cons] at hi
        simp only [List.getD_cons_succ]
        exact ih (l.drop n) (by omega) j (by omega)

/-! ### The Batch Splitter: `split` -/

/-- The fields of `recipe["spec"]` the batch subsystem touches, plus a
passthrough bag for every other spec key, so frame conditions ("no other
field is modified") are expressible. -/
structure RecipeSpec where
  command : List String
  start_script : String
  extra : List (String × String)
deriving Repr, DecidableEq, Inhabited

/-- A resource recipe: its `spec` mapping plus a passthrough bag for the
recipe's other top-level keys. -/
structure Recipe where
  spec : RecipeSpec
  extra : List (String × String)
deriving Repr, DecidableEq, Inhabited

/-- The run-selection step of `split` (`run.py` lines 205-222): when at
least one inclusion flag is off, classify against the remote listing and
take the incomplete runs, then the failures when `include_failures`, then
the completed when `include_completed`; when both flags are on, skip
classification and take the batch's full run list.  `none` models the
`ValueError` a non-integer status file raises inside `categorize_runs`. -/
def select_runs (mapping : RemoteStore) (include_completed include_failures : Bool)
    (runs : List Run) : Option (List Run) :=
  if !include_completed || !include_failures then
    (categorize_runs mapping runs).map (fun t =>
      t.1 ++ (if include_failures then t.2.1 else []) ++ (if include_completed then t.2.2 else []))
  else some runs

/-- Everything `split` produces: the selected re-run list (`to_execute`
before the `max_jobs` cut), the list actually partitioned (after the
cut), the chunk size used, the written sub-batch files as
`(local path, sub-batch)` pairs, the collected `output_batch_files`
remote paths, the updated recipe, and whether the classifier (and hence
the remote listing) was consulted. -/
structure SplitResult where
  selected : List Run
  kept : List Run
  batch_size_int : Nat
  files : List (String × Batch)
  output_batch_files : List String
  recipe : Recipe
  classifierCalled : Bool
deriving Repr, DecidableEq, Inhabited

/-- `split` from `run.py` (lines 194-244): build the batch from its dict,
select the runs to re-execute, optionally truncate to `max_jobs`, default
the chunk size to `3 * nprocs`, partition with `partition_all`, write
chunk `i` to `join(local_commands_directory, f"{i}.json")` as a sub-batch
inheriting `nprocs` and `remote_output_path`, collect the matching remote
paths, and overwrite the recipe's `spec.command` with one
`"sc batch {remote_path}"` invocation per sub-batch file. -/
def split (recipe : Recipe) (batch_dict : BatchDict) (fresh : Nat → String)
    (local_commands_directory remote_commands_directory : String)
    (batch_size : Option Nat) (include_completed include_failures : Bool)
    (max_jobs : Int) (mapping : RemoteStore) : Option SplitResult :=
  let batch := Batch.from_dict fresh batch_dict
  (select_runs mapping include_completed include_failures batch.runs).map (fun to_execute =>
    let kept := if max_jobs > 0 then to_execute.take max_jobs.toNat else to_execute
    let batch_size_int := batch_size.getD (batch.nprocs * 3)
    let chunks := partition_all batch_size_int kept
    let files := chunks.enum.map (fun p =>
      (osJoin local_commands_directory (pyStrNat p.1 ++ ".json"),
       ({ runs := p.2, remote_output_path := batch.remote_output_path,
          nprocs := batch.nprocs } : Batch)))
    let output_batch_files := chunks.enum.map (fun p =>
      osJoin remote_commands_directory (pyStrNat p.1 ++ ".json"))
    { selected := to_execute, kept := kept, batch_size_int := batch_size_int,
      files := files, output_batch_files := output_batch_files,
      recipe := { recipe with spec := { recipe.spec with
        command := output_batch_files.map (fun x => "sc batch " ++ x) } },
      classifierCalled := !include_completed || !include_failures })

theorem enumFrom_map_fst {α β : Type} (g : Nat → β) :
    ∀ (l : List α) (k : Nat),
      (List.enumFrom k l).map (fun p => g p.1) = (List.range' k l.length).map g := by
  intro l
  induction l with
  | nil => intro k; simp
  | cons a t ih =>
    intro k
    simp only [List.enumFrom, List.map_cons, List.length_cons, List.range'_succ]
    rw [ih (k + 1)]

theorem enumFrom_map_snd {α β : Type} (g : α → β) :
    ∀ (l : List α) (k : Nat),
      (List.enumFrom k l).map (fun p => g p.2) = l.map g := by
  intro l
  induction l with
  | nil => intro k; simp
  | cons a t ih =>
    intro k
    simp only [List.enumFrom, List.map_cons]
    rw [ih (k + 1)]

theorem enumFrom_mem_snd {α : Type} :
    ∀ (l : List α) (k : Nat) (q : Nat × α), q ∈ List.enumFrom k l → q.2 ∈ l := by
  intro l
  induction l with
  | nil => intro k q hq; simp [List.enumFrom] at hq
  | cons a t ih =>
    intro k q hq
    simp only [List.enumFrom, List.mem_cons] at hq
    rcases hq with hq | hq
    · subst hq; simp
    · exact List.mem_cons_of_mem a (ih (k + 1) q hq)

/-- C7: with both inclusion flags set, `split` never consults the
classifier: `classifierCalled` is `false`, its result does not depend on
the remote listing at all, and the selected re-run list is the batch's
full original run list, unfiltered and in its original order. -/
theorem split_bypasses_classifier (recipe : Recipe) (d : BatchDict) (fresh : Nat → String)
    (ld rd : String) (bs : Option Nat) (mj : Int) (mapping : RemoteStore) :
    (split recipe d fresh ld rd bs true true mj mapping).map
        (fun res => (res.classifierCalled, res.selected)) =
      some (false, (Batch.from_dict fresh d).runs) ∧
    ∀ mapping2 : RemoteStore,
      split recipe d fresh ld rd bs true true mj mapping =
        split recipe d fresh ld rd bs true true mj mapping2 :=
  ⟨rfl, fun _ => rfl⟩

/-- C6: with the default flags (`include_completed = include_failures =
false`, exactly the defaults of `split`), the selected re-run list is the
incomplete runs only — completed and failed runs are both skipped — and
whenever at least one flag is off the two flags act independently: the
selection is `incomplete`, plus the failures exactly when
`include_failures`, plus the completed exactly when `include_completed`. -/
theorem split_selection_policy (recipe : Recipe) (d : BatchDict) (fresh : Nat → String)
    (ld rd : String) (bs : Option Nat) (mj : Int) (mapping : RemoteStore)
    (i f c : List Run)
    (h : categorize_runs mapping (Batch.from_dict fresh d).runs = some (i, f, c)) :
    (split recipe d fresh ld rd bs false false mj mapping).map SplitResult.selected =
      some i ∧
    ∀ fc ff : Bool, ¬(fc = true ∧ ff = true) →
      (split recipe d fresh ld rd bs fc ff mj mapping).map SplitResult.selected =
        some (i ++ (if ff then f else []) ++ (if fc then c else [])) := by
  constructor
  · simp [split, select_runs, h]
  · intro fc ff hflags
    have hcond : (!fc || !ff) = true := by
      cases fc <;> cases ff <;> simp_all
    simp [split, select_runs, hcond, h]

/-- C9: whenever `split` returns, the recipe's `spec.command` has been
overwritten with exactly one `"sc batch {remote_commands_directory}/{i}.json"`
invocation per produced sub-batch file, in chunk-index order, regardless
of the command value the recipe held before (the quantification over
`recipe` is unconstrained and the right-hand side never mentions the old
command); every other recipe field — `spec.start_script`, the remaining
spec keys, and the recipe's other top-level keys — is unchanged. -/
theorem split_recipe_overwrite (recipe : Recipe) (d : BatchDict) (fresh : Nat → String)
    (ld rd : String) (bs : Option Nat) (fc ff : Bool) (mj : Int) (mapping : RemoteStore)
    (res : SplitResult)
    (h : split recipe d fresh ld rd bs fc ff mj mapping = some res) :
    res.recipe.spec.command =
      (List.range res.files.length).map
        (fun i => "sc batch " ++ osJoin rd (pyStrNat i ++ ".json")) ∧
    res.recipe.spec.start_script = recipe.spec.start_script ∧
    res.recipe.spec.extra = recipe.spec.extra ∧
    res.recipe.extra = recipe.extra := by
  rw [split] at h
  cases hsel : select_runs mapping fc ff (Batch.from_dict fresh d).runs with
  | none => rw [hsel] at h; exact absurd h (by simp)
  | some te =>
    rw [hsel] at h
    simp only [Option.map_some', Option.some.injEq] at h
    subst h
    refine ⟨?_, rfl, rfl, rfl⟩
    simp only [List.length_map, List.enum, List.enumFrom_length, List.map_map,
      Function.comp_def]
    rw [enumFrom_map_fst (fun i => "sc batch " ++ osJoin rd (pyStrNat i ++ ".json"))]
    rw [List.range_eq_range']

/-- C5: whenever `split` returns and the chunk size `K` (the given
`batch_size`, defaulting to `3 * nprocs`) is positive, exactly
`ceil(M/K)` sub-batch files are produced for the `M` selected (and
possibly `max_jobs`-truncated) runs; file `i` is written to
`{local_commands_directory}/{i}.json` in chunk-index order; every chunk
holds at most `K` runs and every chunk but the last holds exactly `K`;
and concatenating the chunks in index order reproduces the selected list
in its original order. -/
theorem split_chunking (recipe : Recipe) (d : BatchDict) (fresh : Nat → String)
    (ld rd : String) (bs : Option Nat) (fc ff : Bool) (mj : Int) (mapping : RemoteStore)
    (res : SplitResult)
    (h : split recipe d fresh ld rd bs fc ff mj mapping = some res)
    (hn : 0 < res.batch_size_int) :
    res.batch_size_int = bs.getD ((Batch.from_dict fresh d).nprocs * 3) ∧
    res.files.length = (res.kept.length + res.batch_size_int - 1) / res.batch_size_int ∧
    res.files.map Prod.fst =
      (List.range res.files.length).map (fun i => osJoin ld (pyStrNat i ++ ".json")) ∧
    (∀ pb ∈ res.files, pb.2.runs.length ≤ res.batch_size_int) ∧
    (∀ i, i + 1 < res.files.length →
      ((res.files.map (fun pb => pb.2.runs)).getD i []).length = res.batch_size_int) ∧
    (res.files.map (fun pb => pb.2.runs)).flatten = res.kept := by
  rw [split] at h
  cases hsel : select_runs mapping fc ff (Batch.from_dict fresh d).runs with
  | none => rw [hsel] at h; exact absurd h (by simp)
  | some te =>
    rw [hsel] at h
    simp only [Option.map_some', Option.some.injEq] at h
    subst h
    simp only at hn
    refine ⟨rfl, ?_, ?_, ?_, ?_, ?_⟩
    · simp only [List.length_map, List.enum, List.enumFrom_length]
      exact partition_all_length _ hn _
    · simp only [List.length_map, List.enum, List.enumFrom_length, List.map_map,
        Function.comp_def]
      rw [enumFrom_map_fst (fun i => osJoin ld (pyStrNat i ++ ".json"))]
      rw [List.range_eq_range']
    · intro pb hpb
      simp only [List.mem_map] at hpb
      obtain ⟨q, hq, rfl⟩ := hpb
      have hq2 := enumFrom_mem_snd _ _ _ hq
      exact partition_all_chunk_le _ _ _ le_rfl _ hq2
    · intro i hi
      simp only [List.length_map, List.enum, List.enumFrom_length] at hi
      simp only [List.map_map, Function.comp_def, List.enum]
      rw [enumFrom_map_snd (fun c : List Run => c)]
      simp only [List.map_id']
      exact partition_all_full_chunks _ hn _ _ le_rfl i hi
    · simp only [List.map_map, Function.comp_def, List.enum]
      rw [enumFrom_map_snd (fun c : List Run => c)]
      simp only [List.map_id']
      exact partition_all_join _ hn _

/-- A serialized form of the scenario batch with all run fields present
and `nprocs` 2. -/
def sampleBatchDict : BatchDict :=
  { runs := [
      { cmd := "echo 1", remote_output_path := some "mem://out/0",
        local_results_dir := some "/tmp/a/" },
      { cmd := "echo 2", remote_output_path := some "mem://out/1",
        local_results_dir := some "/tmp/b/" },
      { cmd := "exit 1", remote_output_path := some "mem://out/2",
        local_results_dir := some "/tmp/c/" }],
    remote_output_path := "mem://out", nprocs := some 2 }

/-- A sample resource recipe with a pre-existing command. -/
def sampleRecipe : Recipe :=
  { spec := { command := ["old command"], start_script := "#!/bin/bash",
              extra := [("image", "base")] },
    extra := [("version", "2022.01")] }

/-- A concrete `split` invocation on the scenario data: chunk size 1,
failures included, completed skipped, no `max_jobs` cap. -/
def sampleSplit : Option SplitResult :=
  split sampleRecipe sampleBatchDict (fun _ => "cafe") "/tmp/commands" "mem://cmds"
    (some 1) false true (-1) sampleMapping

/-- Witness for C6: on the scenario store, the default flags select only
the incomplete run, and `include_failures` alone additionally selects the
failed run. -/
theorem split_selection_policy_witness :
    (split sampleRecipe sampleBatchDict (fun _ => "cafe") "/tmp/commands" "mem://cmds"
        none false false (-1) sampleMapping).map SplitResult.selected =
      some [sampleRun1] ∧
    (split sampleRecipe sampleBatchDict (fun _ => "cafe") "/tmp/commands" "mem://cmds"
        none false true (-1) sampleMapping).map SplitResult.selected =
      some ([sampleRun1] ++ [annotateRun sampleMapping sampleRun2]) := by
  have h := split_selection_policy sampleRecipe sampleBatchDict (fun _ => "cafe")
    "/tmp/commands" "mem://cmds" none (-1) sampleMapping [sampleRun1]
    [annotateRun sampleMapping sampleRun2] [annotateRun sampleMapping sampleRun0]
    (by decide)
  refine ⟨h.1, ?_⟩
  have h2 := h.2 false true (by simp)
  simpa using h2

/-- Witness for C5 on `sampleSplit`: two selected runs, chunk size 1, two
sub-batch files `0.json` and `1.json` of one run each. -/
theorem split_chunking_witness :
    (sampleSplit.getD default).batch_size_int =
      (some 1 : Option Nat).getD ((Batch.from_dict (fun _ => "cafe") sampleBatchDict).nprocs * 3) ∧
    (sampleSplit.getD default).files.length =
      ((sampleSplit.getD default).kept.length + (sampleSplit.getD default).batch_size_int - 1) /
        (sampleSplit.getD default).batch_size_int ∧
    (sampleSplit.getD default).files.map Prod.fst =
      (List.range (sampleSplit.getD default).files.length).map
        (fun i => osJoin "/tmp/commands" (pyStrNat i ++ ".json")) ∧
    (∀ pb ∈ (sampleSplit.getD default).files,
      pb.2.runs.length ≤ (sampleSplit.getD default).batch_size_int) ∧
    (∀ i, i + 1 < (sampleSplit.getD default).files.length →
      (((sampleSplit.getD default).files.map (fun pb => pb.2.runs)).getD i []).length =
        (sampleSplit.getD default).batch_size_int) ∧
    ((sampleSplit.getD default).files.map (fun pb => pb.2.runs)).flatten =
      (sampleSplit.getD default).kept :=
  split_chunking sampleRecipe sampleBatchDict (fun _ => "cafe") "/tmp/commands" "mem://cmds"
    (some 1) false true (-1) sampleMapping (sampleSplit.getD default) (by decide) (by decide)

/-- Witness for C9 on `sampleSplit`: the command list becomes the two
`sc batch` invocations and the other recipe fields survive. -/
theorem split_recipe_overwrite_witness :
    (sampleSplit.getD default).recipe.spec.command =
      (List.range (sampleSplit.getD default).files.length).map
        (fun i => "sc batch " ++ osJoin "mem://cmds" (pyStrNat i ++ ".json")) ∧
    (sampleSplit.getD default).recipe.spec.start_script = sampleRecipe.spec.start_script ∧
    (sampleSplit.getD default).recipe.spec.extra = sampleRecipe.spec.extra ∧
    (sampleSplit.getD default).recipe.extra = sampleRecipe.extra :=
  split_recipe_overwrite sampleRecipe sampleBatchDict (fun _ => "cafe") "/tmp/commands"
    "mem://cmds" (some 1) false true (-1) sampleMapping (sampleSplit.getD default) (by decide)
